import Mathlib

/-!
Shallow embedding of the License Key Manager CLI (`src/main.js`).

The program's own functions (`generateLicenseKey`, `isValidDomain`,
`isValidExpirationDate`, `calculateChecksum`, `addChecksum`, and the
`generate`/`verify` command actions) are translated below.  The Node
primitives they call are embedded as follows:

* `crypto.createHash('md5')` / `crypto.createHash('sha256')`: full
  executable implementations of MD5 (RFC 1321) and SHA-256 (FIPS 180-4)
  over byte lists, with 32-bit words represented as `Nat` reduced mod
  `2 ^ 32`.  `Buffer.toString('hex')` is `hexOfBytes`; `hash.update`
  with a JS string uses its UTF-8 bytes (`strToBytes`).
* `crypto.randomBytes(16)` : the generation functions take the drawn
  bytes as an explicit argument.
* `machineIdSync()` : an explicit `Option String` argument (`none`
  models the unavailable/throwing case).
* `new Date(...)` / `Date.now` : see `jsDateParse` further below.
-/

set_option autoImplicit false

namespace LicenseCLI

/-! ### 32-bit word arithmetic on `Nat` -/

/-- Reduce a natural number to a 32-bit word. -/
def u32 (n : Nat) : Nat := n % 4294967296

/-- Rotate a 32-bit word (`x < 2 ^ 32`) left by `s` bits (`s ≤ 32`). -/
def rotl32 (x s : Nat) : Nat := x % 2 ^ (32 - s) * 2 ^ s + x / 2 ^ (32 - s)

/-- Rotate a 32-bit word (`x < 2 ^ 32`) right by `s` bits (`s ≤ 32`). -/
def rotr32 (x s : Nat) : Nat := x % 2 ^ s * 2 ^ (32 - s) + x / 2 ^ s

/-- Bitwise complement of a 32-bit word (`x < 2 ^ 32`). -/
def not32 (x : Nat) : Nat := 4294967295 - x

/-- Little-endian byte serialization of `n` on `k` bytes. -/
def toBytesLE : Nat → Nat → List Nat
  | _, 0 => []
  | n, k + 1 => n % 256 :: toBytesLE (n / 256) k

/-- Big-endian byte serialization of `n` on `k` bytes. -/
def toBytesBE (n k : Nat) : List Nat := (toBytesLE n k).reverse

/-- Group a byte list into little-endian 32-bit words. -/
def wordsLE : List Nat → List Nat
  | b0 :: b1 :: b2 :: b3 :: rest =>
    (b0 + 256 * b1 + 65536 * b2 + 16777216 * b3) :: wordsLE rest
  | _ => []

/-- Group a byte list into big-endian 32-bit words. -/
def wordsBE : List Nat → List Nat
  | b0 :: b1 :: b2 :: b3 :: rest =>
    (16777216 * b0 + 65536 * b1 + 256 * b2 + b3) :: wordsBE rest
  | _ => []

/-- Split a byte list into 64-byte blocks (fuel-driven so it reduces
definitionally; the fuel `l.length` always suffices). -/
def chunksGo : Nat → List Nat → List (List Nat)
  | _, [] => []
  | 0, _ => []
  | fuel + 1, l => l.take 64 :: chunksGo fuel (l.drop 64)

/-- Split a byte list into 64-byte blocks. -/
def chunks64 (l : List Nat) : List (List Nat) := chunksGo l.length l

/-- Merkle–Damgård padding: `0x80`, zeros to 56 mod 64, then the 8-byte
bit length, little-endian (MD5). -/
def md5pad (msg : List Nat) : List Nat :=
  msg ++ 128 :: List.replicate ((119 - msg.length % 64) % 64) 0
      ++ toBytesLE (8 * msg.length) 8

/-- Merkle–Damgård padding with big-endian bit length (SHA-256). -/
def sha256pad (msg : List Nat) : List Nat :=
  msg ++ 128 :: List.replicate ((119 - msg.length % 64) % 64) 0
      ++ toBytesBE (8 * msg.length) 8

/-! ### MD5 (RFC 1321) -/

def md5F (b c d : Nat) : Nat := b &&& c ||| not32 b &&& d

def md5G (b c d : Nat) : Nat := b &&& d ||| c &&& not32 d

def md5H (b c d : Nat) : Nat := b ^^^ c ^^^ d

def md5I (b c d : Nat) : Nat := c ^^^ (b ||| not32 d)

/-- The 64 MD5 round constants `⌊|sin (i+1)| · 2³²⌋`. -/
def md5K : List Nat :=
  [3614090360, 3905402710, 606105819, 3250441966, 4118548399, 1200080426, 2821735955, 4249261313,
   1770035416, 2336552879, 4294925233, 2304563134, 1804603682, 4254626195, 2792965006, 1236535329,
   4129170786, 3225465664, 643717713, 3921069994, 3593408605, 38016083, 3634488961, 3889429448,
   568446438, 3275163606, 4107603335, 1163531501, 2850285829, 4243563512, 1735328473, 2368359562,
   4294588738, 2272392833, 1839030562, 4259657740, 2763975236, 1272893353, 4139469664, 3200236656,
   681279174, 3936430074, 3572445317, 76029189, 3654602809, 3873151461, 530742520, 3299628645,
   4096336452, 1126891415, 2878612391, 4237533241, 1700485571, 2399980690, 4293915773, 2240044497,
   1873313359, 4264355552, 2734768916, 1309151649, 4149444226, 3174756917, 718787259, 3951481745]

/-- The 64 MD5 per-round left-rotation amounts. -/
def md5S : List Nat :=
  [7, 12, 17, 22, 7, 12, 17, 22, 7, 12, 17, 22, 7, 12, 17, 22,
   5, 9, 14, 20, 5, 9, 14, 20, 5, 9, 14, 20, 5, 9, 14, 20,
   4, 11, 16, 23, 4, 11, 16, 23, 4, 11, 16, 23, 4, 11, 16, 23,
   6, 10, 15, 21, 6, 10, 15, 21, 6, 10, 15, 21, 6, 10, 15, 21]

/-- One MD5 operation (step `i` of 64) on state `(a, b, c, d)` with
message words `M`. -/
def md5step (M : List Nat) (st : Nat × Nat × Nat × Nat) (i : Nat) :
    Nat × Nat × Nat × Nat :=
  let (a, b, c, d) := st
  let fg : Nat × Nat :=
    if i < 16 then (md5F b c d, i)
    else if i < 32 then (md5G b c d, (5 * i + 1) % 16)
    else if i < 48 then (md5H b c d, (3 * i + 5) % 16)
    else (md5I b c d, 7 * i % 16)
  let tmp := u32 (a + fg.1 + md5K.getD i 0 + M.getD fg.2 0)
  (d, u32 (b + rotl32 tmp (md5S.getD i 0)), b, c)

/-- MD5 compression of a single 64-byte block into the running state. -/
def md5compress (st : Nat × Nat × Nat × Nat) (block : List Nat) :
    Nat × Nat × Nat × Nat :=
  let M := wordsLE block
  let r := (List.range 64).foldl (md5step M) st
  (u32 (st.1 + r.1), u32 (st.2.1 + r.2.1), u32 (st.2.2.1 + r.2.2.1),
   u32 (st.2.2.2 + r.2.2.2))

/-- MD5 digest of a byte message: 16 bytes. -/
def md5Bytes (msg : List Nat) : List Nat :=
  let r := (chunks64 (md5pad msg)).foldl md5compress
    (1732584193, 4023233417, 2562383102, 271733878)
  toBytesLE r.1 4 ++ toBytesLE r.2.1 4 ++ toBytesLE r.2.2.1 4 ++ toBytesLE r.2.2.2 4

/-! ### SHA-256 (FIPS 180-4) -/

def shaCh (e f g : Nat) : Nat := e &&& f ^^^ not32 e &&& g

def shaMaj (a b c : Nat) : Nat := a &&& b ^^^ a &&& c ^^^ b &&& c

def bigSigma0 (a : Nat) : Nat := rotr32 a 2 ^^^ rotr32 a 13 ^^^ rotr32 a 22

def bigSigma1 (e : Nat) : Nat := rotr32 e 6 ^^^ rotr32 e 11 ^^^ rotr32 e 25

def smallSigma0 (x : Nat) : Nat := rotr32 x 7 ^^^ rotr32 x 18 ^^^ x / 2 ^ 3

def smallSigma1 (x : Nat) : Nat := rotr32 x 17 ^^^ rotr32 x 19 ^^^ x / 2 ^ 10

/-- The 64 SHA-256 round constants (fractional parts of cube roots of
the first 64 primes). -/
def sha256K : List Nat :=
  [1116352408, 1899447441, 3049323471, 3921009573, 961987163, 1508970993, 2453635748, 2870763221,
   3624381080, 310598401, 607225278, 1426881987, 1925078388, 2162078206, 2614888103, 3248222580,
   3835390401, 4022224774, 264347078, 604807628, 770255983, 1249150122, 1555081692, 1996064986,
   2554220882, 2821834349, 2952996808, 3210313671, 3336571891, 3584528711, 113926993, 338241895,
   666307205, 773529912, 1294757372, 1396182291, 1695183700, 1986661051, 2177026350, 2456956037,
   2730485921, 2820302411, 3259730800, 3345764771, 3516065817, 3600352804, 4094571909, 275423344,
   430227734, 506948616, 659060556, 883997877, 958139571, 1322822218, 1537002063, 1747873779,
   1955562222, 2024104815, 2227730452, 2361852424, 2428436474, 2756734187, 3204031479, 3329325298]

/-- Extend 16 message words to the 64-word SHA-256 schedule. -/
def sha256Extend (W16 : List Nat) : List Nat :=
  (List.range 48).foldl
    (fun W _ =>
      W ++ [u32 (W.getD (W.length - 16) 0 + smallSigma0 (W.getD (W.length - 15) 0)
        + W.getD (W.length - 7) 0 + smallSigma1 (W.getD (W.length - 2) 0))])
    W16

/-- One SHA-256 round (`i` of 64) on the 8-word state. -/
def sha256Step (W : List Nat)
    (st : Nat × Nat × Nat × Nat × Nat × Nat × Nat × Nat) (i : Nat) :
    Nat × Nat × Nat × Nat × Nat × Nat × Nat × Nat :=
  let (a, b, c, d, e, f, g, h) := st
  let t1 := u32 (h + bigSigma1 e + shaCh e f g + sha256K.getD i 0 + W.getD i 0)
  let t2 := u32 (bigSigma0 a + shaMaj a b c)
  (u32 (t1 + t2), a, b, c, u32 (d + t1), e, f, g)

/-- SHA-256 compression of a single 64-byte block. -/
def sha256Compress (st : Nat × Nat × Nat × Nat × Nat × Nat × Nat × Nat)
    (block : List Nat) : Nat × Nat × Nat × Nat × Nat × Nat × Nat × Nat :=
  let W := sha256Extend (wordsBE block)
  let r := (List.range 64).foldl (sha256Step W) st
  (u32 (st.1 + r.1), u32 (st.2.1 + r.2.1), u32 (st.2.2.1 + r.2.2.1),
   u32 (st.2.2.2.1 + r.2.2.2.1), u32 (st.2.2.2.2.1 + r.2.2.2.2.1),
   u32 (st.2.2.2.2.2.1 + r.2.2.2.2.2.1), u32 (st.2.2.2.2.2.2.1 + r.2.2.2.2.2.2.1),
   u32 (st.2.2.2.2.2.2.2 + r.2.2.2.2.2.2.2))

/-- SHA-256 digest of a byte message: 32 bytes. -/
def sha256Bytes (msg : List Nat) : List Nat :=
  let r := (chunks64 (sha256pad msg)).foldl sha256Compress
    (1779033703, 3144134277, 1013904242, 2773480762, 1359893119, 2600822924,
     528734635, 1541459225)
  toBytesBE r.1 4 ++ toBytesBE r.2.1 4 ++ toBytesBE r.2.2.1 4
    ++ toBytesBE r.2.2.2.1 4 ++ toBytesBE r.2.2.2.2.1 4
    ++ toBytesBE r.2.2.2.2.2.1 4 ++ toBytesBE r.2.2.2.2.2.2.1 4
    ++ toBytesBE r.2.2.2.2.2.2.2 4

/-! ### Hex encoding and UTF-8 (Node `Buffer.toString('hex')`,
`hash.update(string)`) -/

/-- Lowercase hexadecimal digit for `n < 16`. -/
def hexDigitChar (n : Nat) : Char :=
  if n < 10 then Char.ofNat (48 + n) else Char.ofNat (87 + n)

/-- Two lowercase hex characters for one byte. -/
def byteToHex (b : Nat) : List Char := [hexDigitChar (b / 16 % 16), hexDigitChar (b % 16)]

/-- Node's `Buffer.toString('hex')`: lowercase hex of a byte list. -/
def hexOfBytes (bs : List Nat) : String := String.mk (bs.map byteToHex).flatten

/-- UTF-8 encoding of one Unicode scalar value. -/
def utf8EncodeChar (c : Char) : List Nat :=
  let n := c.toNat
  if n < 128 then [n]
  else if n < 2048 then [192 + n / 64, 128 + n % 64]
  else if n < 65536 then [224 + n / 4096, 128 + n / 64 % 64, 128 + n % 64]
  else [240 + n / 262144, 128 + n / 4096 % 64, 128 + n / 64 % 64, 128 + n % 64]

/-- UTF-8 bytes of a string (what `hash.update` hashes for a JS string). -/
def strToBytes (s : String) : List Nat := (s.data.map utf8EncodeChar).flatten

/-- Node `crypto.createHash('md5').update(s).digest('hex')`. -/
def md5Hex (s : String) : String := hexOfBytes (md5Bytes (strToBytes s))

/-- Node `crypto.createHash('sha256').update(s).digest('hex')`. -/
def sha256Hex (s : String) : String := hexOfBytes (sha256Bytes (strToBytes s))

/-! ### `String.split('.')` (JS) on character lists

JS `key.split('.')` splits at every occurrence of `.`; `"".split('.')`
is `[""]` and a leading/trailing/double dot yields empty components. -/

/-- JS `split('.')` on the character list of a string. -/
def splitDot : List Char → List (List Char)
  | [] => [[]]
  | c :: rest =>
    if c = '.' then [] :: splitDot rest
    else
      match splitDot rest with
      | [] => [[c]]
      | g :: gs => (c :: g) :: gs

/-- Rejoin components with `'.'`, the left inverse of `splitDot`. -/
def joinDot : List (List Char) → List Char
  | [] => []
  | [p] => p
  | p :: ps => p ++ '.' :: joinDot ps

/-- Whether the character list contains no `'.'`. -/
def noDot (cs : List Char) : Bool := cs.all (fun c => c ≠ '.')

/-! ### The program's functions (`src/main.js`) -/

/-- The function `calculateChecksum` (main.js:140-146): MD5 hex digest truncated to
its first 8 characters (`substring(0, 8)`). -/
def calculateChecksum (data : String) : String := (md5Hex data).take 8

/-- The function `addChecksum` (main.js:153-156): append `"." + checksum` to a key. -/
def addChecksum (licenseKey : String) : String :=
  licenseKey ++ "." ++ calculateChecksum licenseKey

/-- The function `generateLicenseKey` (main.js:98-107).  `crypto.randomBytes(16)` is
passed in as `saltBytes`; `salt` is its hex encoding and the digest is
SHA-256 of the template string `` `${salt}-${domain}-${expire}-${hardwareId}` ``. -/
def generateLicenseKey (domain expire hardwareId : String)
    (saltBytes : List Nat) : String :=
  let salt := hexOfBytes saltBytes
  salt ++ "." ++ sha256Hex (salt ++ "-" ++ domain ++ "-" ++ expire ++ "-" ++ hardwareId)

/-- The function `isValidDomain` (main.js:114-117) tests the anchored regex
`[a-zA-Z0-9][a-zA-Z0-9-]{1,61}[a-zA-Z0-9](\.[a-zA-Z]{2,})+`.  Since `.`
occurs in the pattern only as the literal separator and in none of the
character classes, a string matches exactly when its `'.'`-split parts
are a first label matching `[a-zA-Z0-9][a-zA-Z0-9-]{1,61}[a-zA-Z0-9]`
followed by one or more parts matching `[a-zA-Z]{2,}`.  `labelMatch`
renders the first piece: total length 3–63 (1 first + 1–61 middle +
1 last), alphanumeric first and last character, alphanumeric-or-hyphen
middle. -/
def labelMatch (l : List Char) : Bool :=
  decide (3 ≤ l.length) && decide (l.length ≤ 63) &&
  (match l.head? with | some c => c.isAlphanum | none => false) &&
  (match l.getLast? with | some c => c.isAlphanum | none => false) &&
  (l.drop 1).dropLast.all (fun c => c.isAlphanum || c = '-')

/-- One `\.[a-zA-Z]{2,}` group of the domain regex, after the dot. -/
def tldMatch (t : List Char) : Bool := decide (2 ≤ t.length) && t.all Char.isAlpha

/-- The function `isValidDomain` (main.js:114-117). -/
def isValidDomain (domain : String) : Bool :=
  match splitDot domain.data with
  | label :: tld1 :: tlds => labelMatch label && (tld1 :: tlds).all tldMatch
  | _ => false

/-! ### Date validation (`isValidExpirationDate`, main.js:124-133)

`new Date(dateString)` first applies the ECMAScript date-time string
format: a `YYYY-MM-DD` date-only form denotes UTC midnight of that
calendar day and is rejected (Invalid Date, i.e. `NaN`) when the month
or day is out of range for a real proleptic-Gregorian calendar date.
Strings not of that form fall back to implementation-defined heuristics
("lenient" parsing, e.g. V8 accepts `"2025-1-5"`), abstracted here as
the `lenient` parameter; times are milliseconds since the Unix epoch. -/

/-- The test of `/^\d{4}-\d{2}-\d{2}$/` (main.js:131). -/
def datePattern (s : String) : Bool :=
  match s.data with
  | [a, b, c, d, e, f, g, h, i, j] =>
    a.isDigit && b.isDigit && c.isDigit && d.isDigit && e = '-' &&
    f.isDigit && g.isDigit && h = '-' && i.isDigit && j.isDigit
  | _ => false

/-- Numeric value of a decimal digit character. -/
def digitVal (c : Char) : Nat := c.toNat - 48

/-- Gregorian leap-year rule. -/
def isLeapYear (y : Nat) : Bool := y % 4 = 0 && (y % 100 ≠ 0 || y % 400 = 0)

/-- Number of days in month `m` of year `y`. -/
def daysInMonth (y m : Nat) : Nat :=
  if m = 2 then (if isLeapYear y then 29 else 28)
  else if m = 4 || m = 6 || m = 9 || m = 11 then 30
  else 31

/-- Day count of a civil date in the proleptic Gregorian calendar,
counted from 0000-03-01 with the year pre-shifted by +400 so the
computation stays in `Nat` (era formula). -/
def civilDays (y m d : Nat) : Nat :=
  let y' := y - (if m ≤ 2 then 1 else 0)
  let era := y' / 400
  let yoe := y' % 400
  let mp := (m + 9) % 12
  let doy := (153 * mp + 2) / 5 + (d - 1)
  era * 146097 + (yoe * 365 + yoe / 4 - yoe / 100 + doy)

/-- Days from the Unix epoch (1970-01-01) to civil date `y-m-d`. -/
def epochDay (y m d : Nat) : Int :=
  (civilDays (y + 400) m d : Int) - (civilDays 2370 1 1 : Int)

/-- The ECMAScript date-only ISO parse of `new Date(s)`: a literal
`YYYY-MM-DD` digit pattern that denotes a real calendar date parses to
UTC midnight (ms since epoch); anything else is rejected here. -/
def isoDateOnlyParse (s : String) : Option Int :=
  match s.data with
  | [c1, c2, c3, c4, d1, c5, c6, d2, c7, c8] =>
    if c1.isDigit && c2.isDigit && c3.isDigit && c4.isDigit && d1 = '-' &&
       c5.isDigit && c6.isDigit && d2 = '-' && c7.isDigit && c8.isDigit then
      let y := 1000 * digitVal c1 + 100 * digitVal c2 + 10 * digitVal c3 + digitVal c4
      let m := 10 * digitVal c5 + digitVal c6
      let d := 10 * digitVal c7 + digitVal c8
      if 1 ≤ m && m ≤ 12 && 1 ≤ d && d ≤ daysInMonth y m then
        some (epochDay y m d * 86400000)
      else none
    else none
  | _ => none

/-- JS `new Date(s).getTime()`: the ISO date-only parse, falling back to
the engine's lenient heuristics (`lenient`) for non-conforming strings;
`none` models `NaN` (Invalid Date). -/
def jsDateParse (lenient : String → Option Int) (s : String) : Option Int :=
  match isoDateOnlyParse s with
  | some t => some t
  | none => lenient s

/-- The function `isValidExpirationDate` (main.js:124-133):
`!isNaN(date.getTime()) && date > today && /^\d{4}-\d{2}-\d{2}$/.test(s)`.
`today` is the clock reading `now` (ms since epoch); when the parse is
`NaN` every conjunct containing it is false, so the whole conjunction is
false. -/
def isValidExpirationDate (lenient : String → Option Int) (now : Int)
    (dateString : String) : Bool :=
  match jsDateParse lenient dateString with
  | some t => decide (now < t) && datePattern dateString
  | none => false

/-! ### The CLI actions (`generate`, main.js:30-51; `verify`, main.js:62-86) -/

/-- The two failure kinds of the `verify` action: `parts.length !== 3`
(message "Invalid license key format") and a checksum mismatch (message
"Invalid license key: checksum mismatch"). -/
inductive VerifyError where
  | malformedKey
  | checksumMismatch
deriving DecidableEq, Repr

/-- The part-count check and checksum comparison of the `verify` action
(main.js:67-81): require exactly 3 parts `[salt, hash, checksum]`,
recompute the checksum of `` `${salt}.${hash}` `` and compare; on
success report the three parts. -/
def verifyParts : List String → Except VerifyError (String × String × String)
  | [salt, hash, checksum] =>
    if checksum ≠ calculateChecksum (salt ++ "." ++ hash) then
      .error .checksumMismatch
    else
      .ok (salt, hash, checksum)
  | _ => .error .malformedKey

/-- The `verify` action (main.js:62-86): split the key on `'.'`, then
check the part count and the checksum. -/
def verifyKey (key : String) : Except VerifyError (String × String × String) :=
  verifyParts ((splitDot key.data).map String.mk)

/-- The failure kinds of the `generate` action, in the order its checks
run (main.js:34-42): invalid domain, invalid expiration date, and
`machineIdSync()` throwing. -/
inductive GenError where
  | invalidDomain
  | invalidExpiration
  | hardwareIdUnavailable
deriving DecidableEq, Repr

/-- Observable steps of the `generate` action, used to record the order
in which it validates and hashes. -/
inductive GenStep where
  | checkDomain
  | checkExpire
  | getHwId
  | hashCore
  | hashChecksum
deriving DecidableEq, Repr

/-- The `generate` action (main.js:30-51), instrumented with the list of
steps it performs: validate the domain, validate the expiration date,
call `machineIdSync()` (`hw = none` models the throwing case), build the
core key (SHA-256), append the checksum (MD5).  Each failing check
throws, so later steps are not reached. -/
def generateAction (lenient : String → Option Int) (now : Int)
    (domain expire : String) (hw : Option String) (saltBytes : List Nat) :
    List GenStep × Except GenError String :=
  if !isValidDomain domain then
    ([.checkDomain], .error .invalidDomain)
  else if !isValidExpirationDate lenient now expire then
    ([.checkDomain, .checkExpire], .error .invalidExpiration)
  else
    match hw with
    | none => ([.checkDomain, .checkExpire, .getHwId], .error .hardwareIdUnavailable)
    | some hardwareId =>
      ([.checkDomain, .checkExpire, .getHwId, .hashCore, .hashChecksum],
       .ok (addChecksum (generateLicenseKey domain expire hardwareId saltBytes)))

/-! ### Spec-side formulations

These definitions follow the wording of the specification (not the
source) and are compared with the source-derived definitions above. -/

/-- A lowercase hexadecimal character (`0`–`9`, `a`–`f`). -/
def isHexLower (c : Char) : Bool := c.isDigit || (97 ≤ c.toNat && c.toNat ≤ 102)

/-- Spec §4.3: the core key is `salt + "." + digest` where `salt` is the
hex form of the 16 drawn bytes and
`digest = SHA256(salt + "-" + domain + "-" + expire + "-" + hardwareId)`
over the literal string form of each field joined by `-`, with no
length-prefixing. -/
def specCoreKey (domain expire hardwareId : String) (saltBytes : List Nat) :
    String :=
  let salt := hexOfBytes saltBytes
  let digest := sha256Hex (String.intercalate "-" [salt, domain, expire, hardwareId])
  salt ++ "." ++ digest

/-- Decimal digit character of `n < 10`. -/
def decDigit (n : Nat) : Char := Char.ofNat (48 + n)

/-- The literal `YYYY-MM-DD` rendering of `(y, m, d)` (zero-padded). -/
def dateStr (y m d : Nat) : String :=
  String.mk [decDigit (y / 1000 % 10), decDigit (y / 100 % 10),
    decDigit (y / 10 % 10), decDigit (y % 10), '-',
    decDigit (m / 10 % 10), decDigit (m % 10), '-',
    decDigit (d / 10 % 10), decDigit (d % 10)]

/-- A real proleptic-Gregorian calendar date. -/
def isRealDate (y m d : Nat) : Bool :=
  1 ≤ m && m ≤ 12 && 1 ≤ d && d ≤ daysInMonth y m

/-- Spec-side expiration validity: the string is the literal
`YYYY-MM-DD` rendering of a real calendar date whose UTC midnight is
strictly later than the clock reading `now`. -/
def validExpirationSpec (now : Int) (s : String) : Prop :=
  ∃ y m d, y ≤ 9999 ∧ m ≤ 99 ∧ d ≤ 99 ∧ s = dateStr y m d ∧
    isRealDate y m d = true ∧ now < epochDay y m d * 86400000

/-- Spec-side first-label grammar: starts and ends with an alphanumeric
character, middle alphanumeric or hyphen, total length 3–63. -/
def labelSpec (label : List Char) : Prop :=
  (∃ c0 mid c1, label = c0 :: mid ++ [c1] ∧ c0.isAlphanum = true ∧
    c1.isAlphanum = true ∧ ∀ c ∈ mid, c.isAlphanum = true ∨ c = '-') ∧
  3 ≤ label.length ∧ label.length ≤ 63

/-- Spec-side domain grammar: a first label followed by one or more
dot-separated segments of 2+ alphabetic characters. -/
def domainSpec (s : String) : Prop :=
  ∃ label tlds, s.data = label ++ (tlds.map (fun t => '.' :: t)).flatten ∧
    labelSpec label ∧ tlds ≠ [] ∧
    ∀ t ∈ tlds, 2 ≤ t.length ∧ ∀ c ∈ t, c.isAlpha = true

end LicenseCLI

/-! ## Proof development -/

set_option maxRecDepth 100000

namespace LicenseCLI

/-! ### Strings as character lists -/

theorem data_append (a b : String) : (a ++ b).data = a.data ++ b.data := rfl

theorem data_mk (l : List Char) : (String.mk l).data = l := rfl

theorem mk_data (s : String) : String.mk s.data = s := rfl

theorem length_eq_data (s : String) : s.length = s.data.length := rfl

/-! ### Hex encoding -/

theorem isHexLower_hexDigitChar_all : ∀ n < 16, isHexLower (hexDigitChar n) = true := by
  decide

theorem isHexLower_hexDigitChar {n : Nat} (h : n < 16) :
    isHexLower (hexDigitChar n) = true :=
  isHexLower_hexDigitChar_all n h

theorem isHexLower_byteToHex {b : Nat} {c : Char} (hc : c ∈ byteToHex b) :
    isHexLower c = true := by
  rcases hc with _ | ⟨_, _ | ⟨_, h⟩⟩
  · exact isHexLower_hexDigitChar (Nat.mod_lt _ (by omega))
  · exact isHexLower_hexDigitChar (Nat.mod_lt _ (by omega))
  · cases h

theorem isHexLower_hexOfBytes {bs : List Nat} {c : Char}
    (hc : c ∈ (hexOfBytes bs).data) : isHexLower c = true := by
  simp only [hexOfBytes, data_mk, List.mem_flatten, List.mem_map] at hc
  obtain ⟨l, ⟨b, _, rfl⟩, hcl⟩ := hc
  exact isHexLower_byteToHex hcl

theorem ne_dot_of_isHexLower {c : Char} (h : isHexLower c = true) : c ≠ '.' := by
  rintro rfl
  simp [isHexLower, Char.isDigit] at h

theorem length_hexOfBytes (bs : List Nat) :
    (hexOfBytes bs).length = 2 * bs.length := by
  induction bs with
  | nil => rfl
  | cons b bs ih =>
    simp only [hexOfBytes, length_eq_data, data_mk, List.map_cons,
      List.flatten_cons, List.length_append] at ih ⊢
    simp [byteToHex, ih]
    omega

theorem noDot_hexOfBytes (bs : List Nat) : noDot (hexOfBytes bs).data = true := by
  simp only [noDot, List.all_eq_true, decide_eq_true_eq]
  exact fun c hc => ne_dot_of_isHexLower (isHexLower_hexOfBytes hc)

/-! ### Digest shapes -/

theorem length_toBytesLE (n k : Nat) : (toBytesLE n k).length = k := by
  induction k generalizing n with
  | zero => rfl
  | succ k ih => simp [toBytesLE, ih]

theorem lt_of_mem_toBytesLE {n k b : Nat} (hb : b ∈ toBytesLE n k) : b < 256 := by
  induction k generalizing n with
  | zero => cases hb
  | succ k ih =>
    rcases hb with _ | ⟨_, h⟩
    · exact Nat.mod_lt _ (by omega)
    · exact ih h

theorem length_toBytesBE (n k : Nat) : (toBytesBE n k).length = k := by
  simp [toBytesBE, length_toBytesLE]

theorem lt_of_mem_toBytesBE {n k b : Nat} (hb : b ∈ toBytesBE n k) : b < 256 := by
  rw [toBytesBE, List.mem_reverse] at hb
  exact lt_of_mem_toBytesLE hb

theorem length_md5Bytes (msg : List Nat) : (md5Bytes msg).length = 16 := by
  simp [md5Bytes, length_toBytesLE]

theorem lt_of_mem_md5Bytes {msg : List Nat} {b : Nat} (hb : b ∈ md5Bytes msg) :
    b < 256 := by
  simp only [md5Bytes, List.mem_append] at hb
  rcases hb with ((h | h) | h) | h <;> exact lt_of_mem_toBytesLE h

theorem length_sha256Bytes (msg : List Nat) : (sha256Bytes msg).length = 32 := by
  simp [sha256Bytes, length_toBytesBE]

theorem lt_of_mem_sha256Bytes {msg : List Nat} {b : Nat}
    (hb : b ∈ sha256Bytes msg) : b < 256 := by
  simp only [sha256Bytes, List.mem_append] at hb
  rcases hb with ((((((h | h) | h) | h) | h) | h) | h) | h <;>
    exact lt_of_mem_toBytesBE h

theorem length_md5Hex (s : String) : (md5Hex s).length = 32 := by
  simp [md5Hex, length_hexOfBytes, length_md5Bytes]

theorem length_sha256Hex (s : String) : (sha256Hex s).length = 64 := by
  simp [sha256Hex, length_hexOfBytes, length_sha256Bytes]

/-- Taking `2 * k` characters of a hex encoding is encoding the first
`k` bytes. -/
theorem take_hexOfBytes (bs : List Nat) (k : Nat) :
    ((hexOfBytes bs).data.take (2 * k)) = (hexOfBytes (bs.take k)).data := by
  induction bs generalizing k with
  | nil => simp [hexOfBytes]
  | cons b bs ih =>
    cases k with
    | zero => simp [hexOfBytes]
    | succ k =>
      simp only [hexOfBytes, data_mk, List.map_cons, List.flatten_cons,
        List.take_succ_cons, byteToHex] at ih ⊢
      have h2 : 2 * (k + 1) = (2 * k + 1) + 1 := by omega
      simp [h2, List.take_succ_cons, ih]

theorem data_calculateChecksum (s : String) :
    (calculateChecksum s).data = (hexOfBytes ((md5Bytes (strToBytes s)).take 4)).data := by
  have h : (calculateChecksum s).data = (md5Hex s).data.take 8 := by
    simp [calculateChecksum]
  rw [h, show (8 : Nat) = 2 * 4 from rfl, md5Hex, take_hexOfBytes]

theorem length_calculateChecksum (s : String) : (calculateChecksum s).length = 8 := by
  have h16 := length_md5Bytes (strToBytes s)
  rw [length_eq_data, data_calculateChecksum, ← length_eq_data,
    length_hexOfBytes, List.length_take, h16]
  rfl

theorem isHexLower_calculateChecksum {s : String} {c : Char}
    (hc : c ∈ (calculateChecksum s).data) : isHexLower c = true := by
  rw [data_calculateChecksum] at hc
  exact isHexLower_hexOfBytes hc

theorem noDot_calculateChecksum (s : String) :
    noDot (calculateChecksum s).data = true := by
  simp only [noDot, List.all_eq_true, decide_eq_true_eq]
  exact fun c hc => ne_dot_of_isHexLower (isHexLower_calculateChecksum hc)

/-! ### `splitDot` and `joinDot` -/

theorem splitDot_cons_dot (rest : List Char) :
    splitDot ('.' :: rest) = [] :: splitDot rest := by
  simp [splitDot]

theorem splitDot_cons_ne {c : Char} (h : ¬c = '.') (rest : List Char) :
    splitDot (c :: rest) =
      match splitDot rest with
      | [] => [[c]]
      | g :: gs => (c :: g) :: gs := by
  simp [splitDot, h]

theorem splitDot_ne_nil (cs : List Char) : splitDot cs ≠ [] := by
  induction cs with
  | nil => simp [splitDot]
  | cons c rest ih =>
    by_cases hc : c = '.'
    · subst hc; rw [splitDot_cons_dot]; simp
    · rw [splitDot_cons_ne hc]
      rcases hr : splitDot rest with _ | ⟨g, gs⟩ <;> simp

theorem splitDot_of_noDot {l : List Char} (h : noDot l = true) :
    splitDot l = [l] := by
  induction l with
  | nil => rfl
  | cons c rest ih =>
    simp only [noDot, List.all_cons, Bool.and_eq_true, decide_eq_true_eq] at h
    rw [splitDot_cons_ne h.1, ih (by simpa [noDot] using h.2)]

theorem splitDot_append_dot {a : List Char} (b : List Char)
    (h : noDot a = true) : splitDot (a ++ '.' :: b) = a :: splitDot b := by
  induction a with
  | nil => rfl
  | cons c a ih =>
    simp only [noDot, List.all_cons, Bool.and_eq_true, decide_eq_true_eq] at h
    rw [List.cons_append, splitDot_cons_ne h.1, ih (by simpa [noDot] using h.2)]

theorem joinDot_splitDot (cs : List Char) : joinDot (splitDot cs) = cs := by
  induction cs with
  | nil => rfl
  | cons c rest ih =>
    by_cases hc : c = '.'
    · subst hc
      rw [splitDot_cons_dot]
      obtain ⟨g, gs, hg⟩ := List.exists_cons_of_ne_nil (splitDot_ne_nil rest)
      rw [hg] at ih ⊢
      show '.' :: joinDot (g :: gs) = '.' :: rest
      rw [ih]
    · rw [splitDot_cons_ne hc]
      obtain ⟨g, gs, hg⟩ := List.exists_cons_of_ne_nil (splitDot_ne_nil rest)
      rw [hg] at ih ⊢
      cases gs with
      | nil => show c :: g = c :: rest; rw [show joinDot [g] = g from rfl] at ih; rw [ih]
      | cons q qs =>
        show (c :: g) ++ '.' :: joinDot (q :: qs) = c :: rest
        rw [List.cons_append]
        exact congrArg (c :: ·) ih

theorem noDot_mem_splitDot {cs : List Char} :
    ∀ p ∈ splitDot cs, noDot p = true := by
  induction cs with
  | nil => intro p hp; simp [splitDot] at hp; subst hp; rfl
  | cons c rest ih =>
    intro p hp
    by_cases hc : c = '.'
    · subst hc
      rw [splitDot_cons_dot] at hp
      rcases List.mem_cons.1 hp with rfl | h
      · rfl
      · exact ih p h
    · rw [splitDot_cons_ne hc] at hp
      obtain ⟨g, gs, hg⟩ := List.exists_cons_of_ne_nil (splitDot_ne_nil rest)
      rw [hg] at hp
      rcases List.mem_cons.1 hp with rfl | h
      · have hgd : noDot g = true := ih g (hg ▸ List.mem_cons_self g gs)
        simp only [noDot, List.all_cons, Bool.and_eq_true, decide_eq_true_eq]
        exact ⟨hc, by simpa [noDot] using hgd⟩
      · exact ih p (hg ▸ List.mem_cons_of_mem g h)

theorem splitDot_joinDot {ps : List (List Char)} (hne : ps ≠ [])
    (h : ∀ p ∈ ps, noDot p = true) : splitDot (joinDot ps) = ps := by
  induction ps with
  | nil => exact absurd rfl hne
  | cons p ps ih =>
    cases ps with
    | nil => exact splitDot_of_noDot (h p (List.mem_cons_self p []))
    | cons q qs =>
      show splitDot (p ++ '.' :: joinDot (q :: qs)) = p :: q :: qs
      rw [splitDot_append_dot _ (h p (List.mem_cons_self p _)),
        ih (by simp) (fun r hr => h r (List.mem_cons_of_mem p hr))]

theorem length_splitDot (cs : List Char) :
    (splitDot cs).length = cs.count '.' + 1 := by
  induction cs with
  | nil => rfl
  | cons c rest ih =>
    by_cases hc : c = '.'
    · subst hc
      rw [splitDot_cons_dot, List.length_cons, ih, List.count_cons_self]
    · rw [splitDot_cons_ne hc]
      obtain ⟨g, gs, hg⟩ := List.exists_cons_of_ne_nil (splitDot_ne_nil rest)
      rw [hg] at ih ⊢
      rw [List.count_cons_of_ne (Ne.symm hc), ← ih]
      rfl

/-! ### The verification round trip -/

theorem verifyParts_three (salt hash checksum : String) :
    verifyParts [salt, hash, checksum] =
      if checksum ≠ calculateChecksum (salt ++ "." ++ hash) then
        .error .checksumMismatch
      else
        .ok (salt, hash, checksum) := rfl

/-- data of `addChecksum core`. -/
theorem data_addChecksum (core : String) :
    (addChecksum core).data = core.data ++ '.' :: (calculateChecksum core).data := by
  rw [addChecksum, data_append, data_append]
  simp

/-- If the core key splits into exactly two parts `a.b`, then appending
the checksum and verifying succeeds and recovers `(a, b, checksum)`. -/
theorem verifyKey_addChecksum {core : String} {a b : List Char}
    (h : splitDot core.data = [a, b]) :
    verifyKey (addChecksum core) =
      .ok (String.mk a, String.mk b, calculateChecksum core) := by
  have hjoin : core.data = a ++ '.' :: b := by
    conv_lhs => rw [← joinDot_splitDot core.data, h]
    rfl
  have hna : noDot a = true := noDot_mem_splitDot a (h ▸ List.mem_cons_self a [b])
  have hnb : noDot b = true :=
    noDot_mem_splitDot b (h ▸ List.mem_cons_of_mem a (List.mem_cons_self b []))
  have hsplit : splitDot (addChecksum core).data =
      [a, b, (calculateChecksum core).data] := by
    rw [data_addChecksum, hjoin, List.append_assoc, List.cons_append,
      splitDot_append_dot _ hna]
    show a :: splitDot (b ++ '.' :: (calculateChecksum core).data) = _
    rw [splitDot_append_dot _ hnb, splitDot_of_noDot (noDot_calculateChecksum core)]
  have hcore : String.mk a ++ "." ++ String.mk b = core := by
    have : (String.mk a ++ "." ++ String.mk b).data = core.data := by
      rw [data_append, data_append, hjoin]
      simp
    calc String.mk a ++ "." ++ String.mk b
        = String.mk (String.mk a ++ "." ++ String.mk b).data := rfl
      _ = String.mk core.data := by rw [this]
      _ = core := rfl
  rw [verifyKey, hsplit]
  rw [List.map_cons, List.map_cons, List.map_cons, List.map_nil,
    mk_data (calculateChecksum core), verifyParts_three, hcore]
  simp

theorem verifyParts_of_length_ne_three {ps : List String} (h : ps.length ≠ 3) :
    verifyParts ps = .error .malformedKey :=
  match ps with
  | [] => rfl
  | [_] => rfl
  | [_, _] => rfl
  | [_, _, _] => absurd rfl h
  | _ :: _ :: _ :: _ :: _ => rfl

theorem verifyKey_of_length_ne_three {key : String}
    (h : (splitDot key.data).length ≠ 3) :
    verifyKey key = .error .malformedKey := by
  rw [verifyKey]
  exact verifyParts_of_length_ne_three (by rwa [List.length_map])

/-! ## Claims -/

/-- C1: applying `addChecksum` to a core key string containing exactly
one `'.'` character and then running the `verify` action's checksum
verification on the result succeeds (reports the key valid). -/
theorem c1_addChecksum_verifyKey_roundtrip (core : String)
    (h : core.data.count '.' = 1) :
    ∃ out, verifyKey (addChecksum core) = Except.ok out := by
  have hlen : (splitDot core.data).length = 2 := by
    rw [length_splitDot, h]
  obtain ⟨a, b, hab⟩ := List.length_eq_two.1 hlen
  exact ⟨_, verifyKey_addChecksum hab⟩

/-- Witness for C1 at the concrete core key `"abc.def"`. -/
theorem c1_witness :
    ("abc.def" : String).data.count '.' = 1 ∧
    ∃ out, verifyKey (addChecksum "abc.def") = Except.ok out :=
  ⟨by decide, c1_addChecksum_verifyKey_roundtrip "abc.def" (by decide)⟩

/-- C3: a key splitting into a number of parts different from 3 fails
verification with the malformed-key failure, a well-formed 3-part key
whose checksum part differs from the recomputed checksum fails with the
checksum-mismatch failure, and the two failure kinds are distinct values
of `VerifyError`. -/
theorem c3_verify_failure_kinds (key : String) :
    ((splitDot key.data).length ≠ 3 → verifyKey key = .error .malformedKey) ∧
    (∀ s h c, splitDot key.data = [s, h, c] →
      String.mk c ≠ calculateChecksum (String.mk s ++ "." ++ String.mk h) →
      verifyKey key = .error .checksumMismatch) ∧
    VerifyError.malformedKey ≠ VerifyError.checksumMismatch := by
  refine ⟨fun hne => verifyKey_of_length_ne_three hne, ?_, by decide⟩
  intro s h c hsp hne
  rw [verifyKey, hsp, List.map_cons, List.map_cons, List.map_cons, List.map_nil,
    verifyParts_three, if_pos hne]

set_option maxHeartbeats 4000000 in
/-- Witness for C3: `"a.b"` (2 parts) is malformed, `"a.b.00000000"`
(3 parts, wrong checksum) is a checksum mismatch. -/
theorem c3_witness :
    verifyKey "a.b" = .error .malformedKey ∧
    verifyKey "a.b.00000000" = .error .checksumMismatch :=
  ⟨(c3_verify_failure_kinds "a.b").1 (by decide),
   (c3_verify_failure_kinds "a.b.00000000").2.1
     ("a" : String).data ("b" : String).data ("00000000" : String).data
     (by decide) (by decide)⟩

/-- C4: `calculateChecksum data` is the lowercase-hex encoding of the
first 4 bytes of the 16-byte MD5 digest of `data` — equivalently, the
first 8 characters of the 32-character hex digest — so it has length 8
and consists of lowercase hex characters.  (Determinism and saltlessness
are immediate: it is a pure function of `data` alone.) -/
theorem c4_checksum_truncated_md5 (data : String) :
    calculateChecksum data = hexOfBytes ((md5Bytes (strToBytes data)).take 4) ∧
    (calculateChecksum data).length = 8 ∧
    ∀ c ∈ (calculateChecksum data).data, isHexLower c = true := by
  refine ⟨?_, length_calculateChecksum data, fun c hc => isHexLower_calculateChecksum hc⟩
  calc calculateChecksum data
      = String.mk (calculateChecksum data).data := (mk_data _).symm
    _ = String.mk (hexOfBytes ((md5Bytes (strToBytes data)).take 4)).data := by
        rw [data_calculateChecksum]
    _ = hexOfBytes ((md5Bytes (strToBytes data)).take 4) := mk_data _

/-- Witness for C4 at `data := "abc"` (MD5 `900150983cd24fb0…`, so the
checksum is `"90015098"` and `'9'` is one of its characters). -/
theorem c4_witness :
    calculateChecksum "abc" = hexOfBytes ((md5Bytes (strToBytes "abc")).take 4) ∧
    '9' ∈ (calculateChecksum "abc").data ∧ isHexLower '9' = true :=
  ⟨(c4_checksum_truncated_md5 "abc").1, by decide,
   (c4_checksum_truncated_md5 "abc").2.2 '9' (by decide)⟩

/-- C10: verification enforces no shape constraints beyond the part
count: its only failure conditions are a part count different from 3 and
a checksum mismatch, and concrete 3-part keys whose salt and digest are
not 32- and 64-character hex strings — `"x.y."` plus the checksum of
`"x.y"`, and even the all-empty `".."` plus the checksum of `"."` — are
reported valid. -/
theorem c10_verify_only_count_and_checksum :
    (∀ key err, verifyKey key = .error err →
      (err = .malformedKey ∧ (splitDot key.data).length ≠ 3) ∨
      (err = .checksumMismatch ∧ ∃ s h c, splitDot key.data = [s, h, c] ∧
        String.mk c ≠ calculateChecksum (String.mk s ++ "." ++ String.mk h))) ∧
    verifyKey ("x.y." ++ calculateChecksum "x.y") =
      .ok ("x", "y", calculateChecksum "x.y") ∧
    verifyKey (addChecksum ".") = .ok ("", "", calculateChecksum ".") := by
  refine ⟨?_, ?_, ?_⟩
  · intro key err herr
    by_cases h3 : (splitDot key.data).length = 3
    · obtain ⟨u, v, w, hsp⟩ := List.length_eq_three.1 h3
      right
      rw [verifyKey, hsp, List.map_cons, List.map_cons, List.map_cons,
        List.map_nil, verifyParts_three] at herr
      by_cases hcs : String.mk w ≠ calculateChecksum (String.mk u ++ "." ++ String.mk v)
      · rw [if_pos hcs] at herr
        injection herr with heq
        exact ⟨heq.symm, u, v, w, hsp, hcs⟩
      · rw [if_neg hcs] at herr
        exact absurd herr (by simp)
    · left
      have hm := verifyKey_of_length_ne_three h3
      rw [hm] at herr
      injection herr with heq
      exact ⟨heq.symm, h3⟩
  · have hx : splitDot ("x.y" : String).data = [['x'], ['y']] := by decide
    have hv := @verifyKey_addChecksum "x.y" ['x'] ['y'] hx
    rw [show addChecksum "x.y" = "x.y." ++ calculateChecksum "x.y" by
      rw [addChecksum]; rfl] at hv
    exact hv
  · have hx : splitDot ("." : String).data = [[], []] := by decide
    exact @verifyKey_addChecksum "." [] [] hx

/-- C5: the core key produced by `generateLicenseKey` is exactly the
spec's `salt + "." + digest` where `salt` is the 32-lowercase-hex
encoding of the 16 drawn bytes and `digest` is the 64-lowercase-hex
SHA-256 of the four fields joined literally by `-` with no
length-prefixing (`specCoreKey`). -/
theorem c5_core_key_refines_spec (domain expire hardwareId : String)
    (saltBytes : List Nat) (hlen : saltBytes.length = 16)
    (_hbytes : ∀ b ∈ saltBytes, b < 256) :
    generateLicenseKey domain expire hardwareId saltBytes =
      specCoreKey domain expire hardwareId saltBytes ∧
    (hexOfBytes saltBytes).length = 32 ∧
    (∀ c ∈ (hexOfBytes saltBytes).data, isHexLower c = true) ∧
    (sha256Hex (hexOfBytes saltBytes ++ "-" ++ domain ++ "-" ++ expire
      ++ "-" ++ hardwareId)).length = 64 ∧
    (∀ c ∈ (sha256Hex (hexOfBytes saltBytes ++ "-" ++ domain ++ "-" ++ expire
      ++ "-" ++ hardwareId)).data, isHexLower c = true) ∧
    (generateLicenseKey domain expire hardwareId saltBytes).data =
      (hexOfBytes saltBytes).data ++ '.' ::
        (sha256Hex (hexOfBytes saltBytes ++ "-" ++ domain ++ "-" ++ expire
          ++ "-" ++ hardwareId)).data := by
  refine ⟨rfl, ?_, fun c hc => isHexLower_hexOfBytes hc, length_sha256Hex _,
    fun c hc => ?_, ?_⟩
  · rw [length_hexOfBytes, hlen]
  · rw [sha256Hex] at hc
    exact isHexLower_hexOfBytes hc
  · rw [show generateLicenseKey domain expire hardwareId saltBytes =
      hexOfBytes saltBytes ++ "." ++ sha256Hex (hexOfBytes saltBytes ++ "-"
        ++ domain ++ "-" ++ expire ++ "-" ++ hardwareId) from rfl,
      data_append, data_append]
    simp

/-- Witness for C5 at concrete inputs and a concrete 16-byte salt. -/
theorem c5_witness :
    generateLicenseKey "example.com" "2099-12-31" "abc123"
        [1, 2, 3, 4, 5, 6, 7, 8, 9, 10, 11, 12, 13, 14, 15, 255] =
      specCoreKey "example.com" "2099-12-31" "abc123"
        [1, 2, 3, 4, 5, 6, 7, 8, 9, 10, 11, 12, 13, 14, 15, 255] ∧
    (hexOfBytes [1, 2, 3, 4, 5, 6, 7, 8, 9, 10, 11, 12, 13, 14, 15, 255]).length = 32 :=
  ⟨(c5_core_key_refines_spec "example.com" "2099-12-31" "abc123"
      [1, 2, 3, 4, 5, 6, 7, 8, 9, 10, 11, 12, 13, 14, 15, 255]
      (by decide) (by decide)).1,
   (c5_core_key_refines_spec "example.com" "2099-12-31" "abc123"
      [1, 2, 3, 4, 5, 6, 7, 8, 9, 10, 11, 12, 13, 14, 15, 255]
      (by decide) (by decide)).2.1⟩

/-- C2: a successful generation (valid domain, valid expiration,
hardware id available) returns a key of the form
`<32 hex>.<64 hex>.<8 hex>` (all lowercase hex), total length 106,
splitting into exactly those 3 parts, and the `verify` action accepts
that exact string and decomposes it into the same three parts. -/
theorem c2_generate_key_format (lenient : String → Option Int) (now : Int)
    (domain expire hardwareId : String) (saltBytes : List Nat)
    (hd : isValidDomain domain = true)
    (he : isValidExpirationDate lenient now expire = true)
    (hlen : saltBytes.length = 16) (_hbytes : ∀ b ∈ saltBytes, b < 256) :
    ∃ salt dig cks : List Char,
      (generateAction lenient now domain expire (some hardwareId) saltBytes).2 =
        Except.ok (String.mk (salt ++ '.' :: (dig ++ '.' :: cks))) ∧
      salt.length = 32 ∧ dig.length = 64 ∧ cks.length = 8 ∧
      (∀ c ∈ salt, isHexLower c = true) ∧
      (∀ c ∈ dig, isHexLower c = true) ∧
      (∀ c ∈ cks, isHexLower c = true) ∧
      (String.mk (salt ++ '.' :: (dig ++ '.' :: cks))).length = 106 ∧
      splitDot (salt ++ '.' :: (dig ++ '.' :: cks)) = [salt, dig, cks] ∧
      verifyKey (String.mk (salt ++ '.' :: (dig ++ '.' :: cks))) =
        Except.ok (String.mk salt, String.mk dig, String.mk cks) := by
  have hcore : generateLicenseKey domain expire hardwareId saltBytes =
      hexOfBytes saltBytes ++ "." ++ sha256Hex (hexOfBytes saltBytes ++ "-"
        ++ domain ++ "-" ++ expire ++ "-" ++ hardwareId) := rfl
  set core := generateLicenseKey domain expire hardwareId saltBytes with hcoredef
  refine ⟨(hexOfBytes saltBytes).data,
    (sha256Hex (hexOfBytes saltBytes ++ "-" ++ domain ++ "-" ++ expire
      ++ "-" ++ hardwareId)).data,
    (calculateChecksum core).data, ?_, ?_, ?_, ?_, ?_, ?_, ?_, ?_, ?_, ?_⟩
  case _ =>
    have hact : generateAction lenient now domain expire (some hardwareId) saltBytes =
        ([.checkDomain, .checkExpire, .getHwId, .hashCore, .hashChecksum],
         .ok (addChecksum core)) := by
      rw [generateAction, hd, he]
      rfl
    rw [hact]
    have hkd : (addChecksum core).data =
        (hexOfBytes saltBytes).data ++ '.' ::
          ((sha256Hex (hexOfBytes saltBytes ++ "-" ++ domain ++ "-" ++ expire
            ++ "-" ++ hardwareId)).data ++ '.' :: (calculateChecksum core).data) := by
      rw [data_addChecksum, hcore, data_append, data_append]
      simp
    rw [show addChecksum core = String.mk (addChecksum core).data from
      (mk_data _).symm, hkd]
  case _ => rw [← length_eq_data, length_hexOfBytes, hlen]
  case _ => rw [← length_eq_data, length_sha256Hex]
  case _ => rw [← length_eq_data, length_calculateChecksum]
  case _ => exact fun c hc => isHexLower_hexOfBytes hc
  case _ =>
    intro c hc
    rw [sha256Hex] at hc
    exact isHexLower_hexOfBytes hc
  case _ => exact fun c hc => isHexLower_calculateChecksum hc
  case _ =>
    rw [length_eq_data, data_mk]
    have h1 : (hexOfBytes saltBytes).data.length = 32 := by
      rw [← length_eq_data, length_hexOfBytes, hlen]
    have h2 : (sha256Hex (hexOfBytes saltBytes ++ "-" ++ domain ++ "-" ++ expire
        ++ "-" ++ hardwareId)).data.length = 64 := by
      rw [← length_eq_data, length_sha256Hex]
    have h3 : (calculateChecksum core).data.length = 8 := by
      rw [← length_eq_data, length_calculateChecksum]
    simp [h1, h2, h3]
  case _ =>
    rw [splitDot_append_dot _ (noDot_hexOfBytes saltBytes)]
    rw [splitDot_append_dot _ (by rw [sha256Hex]; exact noDot_hexOfBytes _)]
    rw [splitDot_of_noDot (noDot_calculateChecksum core)]
  case _ =>
    have hcd : core.data = (hexOfBytes saltBytes).data ++ '.' ::
        (sha256Hex (hexOfBytes saltBytes ++ "-" ++ domain ++ "-" ++ expire
          ++ "-" ++ hardwareId)).data := by
      rw [hcore, data_append, data_append]
      simp
    have hsp : splitDot core.data =
        [(hexOfBytes saltBytes).data,
         (sha256Hex (hexOfBytes saltBytes ++ "-" ++ domain ++ "-" ++ expire
           ++ "-" ++ hardwareId)).data] := by
      rw [hcd, splitDot_append_dot _ (noDot_hexOfBytes saltBytes),
        splitDot_of_noDot (by rw [sha256Hex]; exact noDot_hexOfBytes _)]
    have hv := verifyKey_addChecksum hsp
    have hkey : addChecksum core = String.mk ((hexOfBytes saltBytes).data ++ '.' ::
        ((sha256Hex (hexOfBytes saltBytes ++ "-" ++ domain ++ "-" ++ expire
          ++ "-" ++ hardwareId)).data ++ '.' :: (calculateChecksum core).data)) := by
      refine ((mk_data (addChecksum core)).symm.trans (congrArg String.mk ?_))
      rw [data_addChecksum, hcd]
      simp
    rw [hkey] at hv
    rw [hv, show calculateChecksum core = String.mk (calculateChecksum core).data from
      (mk_data _).symm]

/-- Witness for C2 at concrete valid inputs. -/
theorem c2_witness :
    ∃ salt dig cks : List Char,
      (generateAction (fun _ => none) 0 "example.com" "2099-12-31"
        (some "abc123") [1, 2, 3, 4, 5, 6, 7, 8, 9, 10, 11, 12, 13, 14, 15, 255]).2 =
        Except.ok (String.mk (salt ++ '.' :: (dig ++ '.' :: cks))) ∧
      salt.length = 32 ∧ dig.length = 64 ∧ cks.length = 8 ∧
      (∀ c ∈ salt, isHexLower c = true) ∧
      (∀ c ∈ dig, isHexLower c = true) ∧
      (∀ c ∈ cks, isHexLower c = true) ∧
      (String.mk (salt ++ '.' :: (dig ++ '.' :: cks))).length = 106 ∧
      splitDot (salt ++ '.' :: (dig ++ '.' :: cks)) = [salt, dig, cks] ∧
      verifyKey (String.mk (salt ++ '.' :: (dig ++ '.' :: cks))) =
        Except.ok (String.mk salt, String.mk dig, String.mk cks) :=
  c2_generate_key_format (fun _ => none) 0 "example.com" "2099-12-31" "abc123"
    [1, 2, 3, 4, 5, 6, 7, 8, 9, 10, 11, 12, 13, 14, 15, 255]
    (by decide) (by decide) rfl (by decide)

/-! ### Digit characters and the date validator -/

theorem isDigit_toNat {c : Char} (h : c.isDigit = true) :
    48 ≤ c.toNat ∧ c.toNat ≤ 57 := by
  simp only [Char.isDigit, ge_iff_le, Bool.and_eq_true, decide_eq_true_eq] at h
  obtain ⟨h1, h2⟩ := h
  rw [UInt32.le_def, BitVec.le_def] at h1 h2
  exact ⟨h1, h2⟩

theorem digitVal_lt_ten {c : Char} (h : c.isDigit = true) : digitVal c < 10 := by
  obtain ⟨h1, h2⟩ := isDigit_toNat h
  rw [digitVal]
  omega

theorem isDigit_decDigit_all : ∀ k < 10, (decDigit k).isDigit = true := by decide

theorem isDigit_decDigit {k : Nat} (h : k < 10) : (decDigit k).isDigit = true :=
  isDigit_decDigit_all k h

theorem digitVal_decDigit_all : ∀ k < 10, digitVal (decDigit k) = k := by decide

theorem digitVal_decDigit {k : Nat} (h : k < 10) : digitVal (decDigit k) = k :=
  digitVal_decDigit_all k h

theorem decDigit_digitVal {c : Char} (h : c.isDigit = true) :
    decDigit (digitVal c) = c := by
  obtain ⟨h1, _⟩ := isDigit_toNat h
  rw [decDigit, digitVal, show 48 + (c.toNat - 48) = c.toNat by omega,
    Char.ofNat_toNat]

theorem data_dateStr (y m d : Nat) :
    (dateStr y m d).data =
      [decDigit (y / 1000 % 10), decDigit (y / 100 % 10), decDigit (y / 10 % 10),
       decDigit (y % 10), '-', decDigit (m / 10 % 10), decDigit (m % 10), '-',
       decDigit (d / 10 % 10), decDigit (d % 10)] := rfl

theorem datePattern_mk (c1 c2 c3 c4 d1 c5 c6 d2 c7 c8 : Char) :
    datePattern (String.mk [c1, c2, c3, c4, d1, c5, c6, d2, c7, c8]) =
      (c1.isDigit && c2.isDigit && c3.isDigit && c4.isDigit && d1 = '-' &&
       c5.isDigit && c6.isDigit && d2 = '-' && c7.isDigit && c8.isDigit) := rfl

theorem datePattern_dateStr (y m d : Nat) : datePattern (dateStr y m d) = true := by
  rw [show dateStr y m d = String.mk (dateStr y m d).data from (mk_data _).symm,
    data_dateStr, datePattern_mk]
  simp [isDigit_decDigit (Nat.mod_lt _ (by omega))]

theorem isoDateOnlyParse_mk (c1 c2 c3 c4 d1 c5 c6 d2 c7 c8 : Char) :
    isoDateOnlyParse (String.mk [c1, c2, c3, c4, d1, c5, c6, d2, c7, c8]) =
      if c1.isDigit && c2.isDigit && c3.isDigit && c4.isDigit && d1 = '-' &&
         c5.isDigit && c6.isDigit && d2 = '-' && c7.isDigit && c8.isDigit then
        let y := 1000 * digitVal c1 + 100 * digitVal c2 + 10 * digitVal c3 + digitVal c4
        let m := 10 * digitVal c5 + digitVal c6
        let d := 10 * digitVal c7 + digitVal c8
        if 1 ≤ m && m ≤ 12 && 1 ≤ d && d ≤ daysInMonth y m then
          some (epochDay y m d * 86400000)
        else none
      else none := rfl

/-- Characterization of the ISO date-only parse: it succeeds exactly on
literal `YYYY-MM-DD` renderings of real calendar dates, yielding UTC
midnight of that day. -/
theorem isoDateOnlyParse_eq_some {s : String} {t : Int} :
    isoDateOnlyParse s = some t ↔
      ∃ y m d, y ≤ 9999 ∧ m ≤ 99 ∧ d ≤ 99 ∧ s = dateStr y m d ∧
        isRealDate y m d = true ∧ t = epochDay y m d * 86400000 := by
  constructor
  · intro h
    rw [isoDateOnlyParse.eq_def] at h
    split at h
    case h_2 => exact absurd h (by simp)
    case h_1 c1 c2 c3 c4 d1 c5 c6 d2 c7 c8 heq =>
      split at h
      case isFalse => exact absurd h (by simp)
      case isTrue hg =>
        simp only [Bool.and_eq_true, decide_eq_true_eq] at hg
        obtain ⟨⟨⟨⟨⟨⟨⟨⟨⟨g1, g2⟩, g3⟩, g4⟩, gd1⟩, g5⟩, g6⟩, gd2⟩, g7⟩, g8⟩ := hg
        dsimp only at h
        split at h
        case isFalse => exact absurd h (by simp)
        case isTrue hr =>
          have v1 := digitVal_lt_ten g1
          have v2 := digitVal_lt_ten g2
          have v3 := digitVal_lt_ten g3
          have v4 := digitVal_lt_ten g4
          have v5 := digitVal_lt_ten g5
          have v6 := digitVal_lt_ten g6
          have v7 := digitVal_lt_ten g7
          have v8 := digitVal_lt_ten g8
          refine ⟨1000 * digitVal c1 + 100 * digitVal c2 + 10 * digitVal c3 + digitVal c4,
            10 * digitVal c5 + digitVal c6, 10 * digitVal c7 + digitVal c8,
            by omega, by omega, by omega, ?_, ?_, (Option.some.inj h).symm⟩
          · have hchars :
                [decDigit ((1000 * digitVal c1 + 100 * digitVal c2 + 10 * digitVal c3
                    + digitVal c4) / 1000 % 10),
                 decDigit ((1000 * digitVal c1 + 100 * digitVal c2 + 10 * digitVal c3
                    + digitVal c4) / 100 % 10),
                 decDigit ((1000 * digitVal c1 + 100 * digitVal c2 + 10 * digitVal c3
                    + digitVal c4) / 10 % 10),
                 decDigit ((1000 * digitVal c1 + 100 * digitVal c2 + 10 * digitVal c3
                    + digitVal c4) % 10), '-',
                 decDigit ((10 * digitVal c5 + digitVal c6) / 10 % 10),
                 decDigit ((10 * digitVal c5 + digitVal c6) % 10), '-',
                 decDigit ((10 * digitVal c7 + digitVal c8) / 10 % 10),
                 decDigit ((10 * digitVal c7 + digitVal c8) % 10)] =
                [c1, c2, c3, c4, d1, c5, c6, d2, c7, c8] := by
              rw [show (1000 * digitVal c1 + 100 * digitVal c2 + 10 * digitVal c3
                    + digitVal c4) / 1000 % 10 = digitVal c1 by omega,
                show (1000 * digitVal c1 + 100 * digitVal c2 + 10 * digitVal c3
                    + digitVal c4) / 100 % 10 = digitVal c2 by omega,
                show (1000 * digitVal c1 + 100 * digitVal c2 + 10 * digitVal c3
                    + digitVal c4) / 10 % 10 = digitVal c3 by omega,
                show (1000 * digitVal c1 + 100 * digitVal c2 + 10 * digitVal c3
                    + digitVal c4) % 10 = digitVal c4 by omega,
                show (10 * digitVal c5 + digitVal c6) / 10 % 10 = digitVal c5 by omega,
                show (10 * digitVal c5 + digitVal c6) % 10 = digitVal c6 by omega,
                show (10 * digitVal c7 + digitVal c8) / 10 % 10 = digitVal c7 by omega,
                show (10 * digitVal c7 + digitVal c8) % 10 = digitVal c8 by omega,
                decDigit_digitVal g1, decDigit_digitVal g2, decDigit_digitVal g3,
                decDigit_digitVal g4, decDigit_digitVal g5, decDigit_digitVal g6,
                decDigit_digitVal g7, decDigit_digitVal g8, gd1, gd2]
            calc s = String.mk s.data := (mk_data _).symm
              _ = String.mk [c1, c2, c3, c4, d1, c5, c6, d2, c7, c8] := by rw [heq]
              _ = dateStr _ _ _ := by rw [← hchars]; rfl
          · exact hr
  · rintro ⟨y, m, d, hy, hm, hd, rfl, hreal, rfl⟩
    rw [show dateStr y m d = String.mk (dateStr y m d).data from (mk_data _).symm,
      data_dateStr, isoDateOnlyParse_mk]
    have hv : ∀ x : Nat, x % 10 < 10 := fun x => Nat.mod_lt _ (by omega)
    rw [if_pos (by simp [isDigit_decDigit (hv _)])]
    have e1 : digitVal (decDigit (y / 1000 % 10)) = y / 1000 % 10 := digitVal_decDigit (hv _)
    have e2 : digitVal (decDigit (y / 100 % 10)) = y / 100 % 10 := digitVal_decDigit (hv _)
    have e3 : digitVal (decDigit (y / 10 % 10)) = y / 10 % 10 := digitVal_decDigit (hv _)
    have e4 : digitVal (decDigit (y % 10)) = y % 10 := digitVal_decDigit (hv _)
    have e5 : digitVal (decDigit (m / 10 % 10)) = m / 10 % 10 := digitVal_decDigit (hv _)
    have e6 : digitVal (decDigit (m % 10)) = m % 10 := digitVal_decDigit (hv _)
    have e7 : digitVal (decDigit (d / 10 % 10)) = d / 10 % 10 := digitVal_decDigit (hv _)
    have e8 : digitVal (decDigit (d % 10)) = d % 10 := digitVal_decDigit (hv _)
    simp only [e1, e2, e3, e4, e5, e6, e7, e8]
    rw [show 1000 * (y / 1000 % 10) + 100 * (y / 100 % 10) + 10 * (y / 10 % 10)
        + y % 10 = y by omega,
      show 10 * (m / 10 % 10) + m % 10 = m by omega,
      show 10 * (d / 10 % 10) + d % 10 = d by omega]
    have hreal' : (decide (1 ≤ m) && decide (m ≤ 12) && decide (1 ≤ d) &&
        decide (d ≤ daysInMonth y m)) = true := hreal
    rw [if_pos hreal']

/-- C6: `isValidExpirationDate` returns `true` exactly on strings that
literally match the 4-2-2 digit pattern, denote a real calendar date,
and lie strictly after the current moment `now`; a string the lenient
parser would accept but which fails the strict pattern is rejected (for
every lenient fallback), and a date equal to exactly `now` is rejected.
The hypothesis `hl` states that the engine's lenient fallback does not
accept pattern-shaped strings the strict ISO parse rejected (V8 behavior
for e.g. `"2025-02-30"`). -/
theorem c6_expiration_validator (lenient : String → Option Int) (now : Int)
    (s : String) (hl : ∀ u, datePattern u = true → lenient u = none) :
    (isValidExpirationDate lenient now s = true ↔ validExpirationSpec now s) ∧
    (∀ t, isoDateOnlyParse s = some t → ¬now < t →
      isValidExpirationDate lenient now s = false) ∧
    (∀ len2 : String → Option Int, datePattern s = false →
      isValidExpirationDate len2 now s = false) := by
  refine ⟨⟨?_, ?_⟩, ?_, ?_⟩
  · intro h
    rw [isValidExpirationDate.eq_def] at h
    rcases hj : jsDateParse lenient s with _ | t
    · rw [hj] at h
      exact absurd h (by simp)
    · rw [hj] at h
      simp only [Bool.and_eq_true, decide_eq_true_eq] at h
      obtain ⟨hlt, hpat⟩ := h
      rw [jsDateParse.eq_def] at hj
      rcases hiso : isoDateOnlyParse s with _ | u
      · rw [hiso] at hj
        exact absurd (hj.symm.trans (hl s hpat)) (by simp)
      · rw [hiso] at hj
        obtain ⟨y, m, d, hy, hm, hd, hseq, hreal, hteq⟩ :=
          isoDateOnlyParse_eq_some.1 hiso
        exact ⟨y, m, d, hy, hm, hd, hseq, hreal, by
          rw [← hteq, Option.some.inj hj]; exact hlt⟩
  · rintro ⟨y, m, d, hy, hm, hd, hseq, hreal, hlt⟩
    have hiso : isoDateOnlyParse s = some (epochDay y m d * 86400000) :=
      isoDateOnlyParse_eq_some.2 ⟨y, m, d, hy, hm, hd, hseq, hreal, rfl⟩
    have hj : jsDateParse lenient s = some (epochDay y m d * 86400000) := by
      rw [jsDateParse.eq_def, hiso]
    rw [isValidExpirationDate.eq_def, hj]
    have hpat : datePattern s = true := hseq ▸ datePattern_dateStr y m d
    simp [hlt, hpat]
  · intro t hiso hnlt
    have hj : jsDateParse lenient s = some t := by rw [jsDateParse.eq_def, hiso]
    rw [isValidExpirationDate.eq_def, hj]
    simp [hnlt]
  · intro len2 hp
    rw [isValidExpirationDate.eq_def]
    rcases hj : jsDateParse len2 s with _ | t
    · rfl
    · simp [hp]

/-- Witness for C6: with a trivial lenient fallback, `"2099-12-31"`
validates against clock reading 0 and satisfies the spec predicate. -/
theorem c6_witness :
    isValidExpirationDate (fun _ => none) 0 "2099-12-31" = true ∧
    validExpirationSpec 0 "2099-12-31" := by
  have hspec : validExpirationSpec 0 "2099-12-31" :=
    ⟨2099, 12, 31, by omega, by omega, by omega, by decide, by decide, by decide⟩
  exact ⟨(c6_expiration_validator (fun _ => none) 0 "2099-12-31"
    (fun u _ => rfl)).1.2 hspec, hspec⟩

/-! ### The domain validator -/

theorem isAlphanum_ne_dot {c : Char} (h : c.isAlphanum = true) : c ≠ '.' := by
  rintro rfl
  exact absurd h (by decide)

theorem isAlpha_ne_dot {c : Char} (h : c.isAlpha = true) : c ≠ '.' := by
  rintro rfl
  exact absurd h (by decide)

theorem noDot_of_labelSpec {l : List Char} (h : labelSpec l) : noDot l = true := by
  obtain ⟨⟨c0, mid, c1, rfl, h0, h1, hmid⟩, -, -⟩ := h
  simp only [noDot, List.all_eq_true, decide_eq_true_eq]
  intro c hc
  rcases List.mem_cons.1 hc with rfl | hc
  · exact isAlphanum_ne_dot h0
  rcases List.mem_append.1 hc with hc | hc
  · rcases hmid c hc with ha | rfl
    · exact isAlphanum_ne_dot ha
    · decide
  · rcases List.mem_singleton.1 hc with rfl
    exact isAlphanum_ne_dot h1

theorem noDot_of_alpha {t : List Char} (h : ∀ c ∈ t, c.isAlpha = true) :
    noDot t = true := by
  simp only [noDot, List.all_eq_true, decide_eq_true_eq]
  exact fun c hc => isAlpha_ne_dot (h c hc)

theorem labelMatch_iff {l : List Char} : labelMatch l = true ↔ labelSpec l := by
  constructor
  · intro h
    simp only [labelMatch, Bool.and_eq_true, decide_eq_true_eq] at h
    obtain ⟨⟨⟨⟨h3, h63⟩, hhd⟩, hlast⟩, hmid⟩ := h
    have hne : l ≠ [] := by
      rintro rfl
      simp at h3
    obtain ⟨c0, rest, rfl⟩ := List.exists_cons_of_ne_nil hne
    rcases List.eq_nil_or_concat rest with rfl | ⟨mid, c1, rfl⟩
    · exact absurd h3 (by simp)
    · simp only [List.concat_eq_append] at h3 h63 hhd hlast hmid
      refine ⟨⟨c0, mid, c1, by simp [List.concat_eq_append], ?_, ?_, ?_⟩,
        by simpa using h3, by simpa using h63⟩
      · simpa using hhd
      · rw [← List.cons_append, List.getLast?_concat] at hlast
        simpa using hlast
      · intro c hc
        have hmem : c ∈ ((c0 :: (mid ++ [c1])).drop 1).dropLast := by
          simpa using hc
        have := List.all_eq_true.1 hmid c hmem
        simpa [Bool.or_eq_true] using this
  · rintro ⟨⟨c0, mid, c1, rfl, h0, h1, hmid⟩, h3, h63⟩
    simp only [labelMatch, Bool.and_eq_true, decide_eq_true_eq]
    refine ⟨⟨⟨⟨h3, h63⟩, by simp [List.cons_append, h0]⟩, ?_⟩, ?_⟩
    · rw [List.getLast?_concat]
      simpa using h1
    · rw [List.all_eq_true]
      intro c hc
      have hcm : c ∈ mid := by
        simpa [List.cons_append, List.dropLast_concat] using hc
      rcases hmid c hcm with ha | rfl
      · simp [ha]
      · simp

theorem joinDot_cons_eq_flatten (p : List Char) (ps : List (List Char)) :
    joinDot (p :: ps) = p ++ (ps.map (fun t => '.' :: t)).flatten := by
  induction ps generalizing p with
  | nil => simp [joinDot]
  | cons q qs ih =>
    show p ++ '.' :: joinDot (q :: qs) = _
    rw [ih q]
    simp

theorem splitDot_label_tlds {label : List Char} {tlds : List (List Char)}
    (hnl : noDot label = true) (hnt : ∀ t ∈ tlds, noDot t = true) :
    splitDot (label ++ (tlds.map (fun t => '.' :: t)).flatten) = label :: tlds := by
  induction tlds generalizing label with
  | nil => simp [splitDot_of_noDot hnl]
  | cons t ts ih =>
    rw [List.map_cons, List.flatten_cons,
      show ('.' :: t) ++ (ts.map (fun u => '.' :: u)).flatten =
        '.' :: (t ++ (ts.map (fun u => '.' :: u)).flatten) from rfl,
      splitDot_append_dot _ hnl,
      ih (hnt t (List.mem_cons_self t ts))
        (fun u hu => hnt u (List.mem_cons_of_mem t hu))]

theorem isValidDomain_iff {s : String} :
    isValidDomain s = true ↔ domainSpec s := by
  constructor
  · intro h
    rw [isValidDomain.eq_def] at h
    split at h
    case h_2 hne => exact absurd h (by simp)
    case h_1 label tld1 tlds heq =>
      simp only [Bool.and_eq_true] at h
      obtain ⟨hlab, htlds⟩ := h
      refine ⟨label, tld1 :: tlds, ?_, labelMatch_iff.1 hlab, by simp, ?_⟩
      · rw [← joinDot_splitDot s.data, heq, joinDot_cons_eq_flatten]
      · intro t ht
        have := List.all_eq_true.1 htlds t ht
        simp only [tldMatch, Bool.and_eq_true, decide_eq_true_eq] at this
        exact ⟨this.1, fun c hc => List.all_eq_true.1 this.2 c hc⟩
  · rintro ⟨label, tlds, hdata, hlab, hne, htld⟩
    obtain ⟨t1, ts, rfl⟩ := List.exists_cons_of_ne_nil hne
    have hnl : noDot label = true := noDot_of_labelSpec hlab
    have hnt : ∀ t ∈ t1 :: ts, noDot t = true := fun t ht =>
      noDot_of_alpha (htld t ht).2
    have hsp : splitDot s.data = label :: t1 :: ts := by
      rw [hdata]
      exact splitDot_label_tlds hnl hnt
    rw [isValidDomain.eq_def, hsp]
    simp only [Bool.and_eq_true]
    refine ⟨labelMatch_iff.2 hlab, List.all_eq_true.2 ?_⟩
    intro t ht
    simp only [tldMatch, Bool.and_eq_true, decide_eq_true_eq]
    exact ⟨(htld t ht).1, List.all_eq_true.2 (by
      intro c hc
      simp [(htld t ht).2 c hc])⟩

/-- C7: `isValidDomain` accepts exactly the strings of the spec's
grammar (`domainSpec`: a 3–63 character first label that starts and ends
alphanumerically with an alphanumeric/hyphen middle, followed by one or
more dot-separated segments of 2+ alphabetic characters), and rejects a
leading hyphen, a trailing hyphen, an underscore, an IP literal, a
missing TLD, and a length-1 label. -/
theorem c7_domain_validator :
    (∀ s, isValidDomain s = true ↔ domainSpec s) ∧
    isValidDomain "-abc.com" = false ∧
    isValidDomain "abc-.com" = false ∧
    isValidDomain "a_b.com" = false ∧
    isValidDomain "192.168.0.1" = false ∧
    isValidDomain "abc" = false ∧
    isValidDomain "a.com" = false :=
  ⟨fun _ => isValidDomain_iff, by decide, by decide, by decide, by decide,
   by decide, by decide⟩

/-- Witness for C7 at the accepted domain `"example.com"`. -/
theorem c7_witness :
    isValidDomain "example.com" = true ∧ domainSpec "example.com" :=
  have hv : isValidDomain "example.com" = true := by decide
  ⟨hv, (c7_domain_validator.1 "example.com").1 hv⟩

/-- C8: the generate flow performs its steps in the fixed order domain
check, expiration check, hardware id, core hash, checksum (the recorded
trace is always a prefix of that list); it fails fast with the matching
error kind — in particular an invalid domain aborts with
`invalidDomain` before any hashing step is performed, regardless of the
other inputs — and on success it returns exactly the full checksummed
key, never a partial one. -/
theorem c8_generate_fail_fast (lenient : String → Option Int) (now : Int)
    (domain expire : String) (hw : Option String) (saltBytes : List Nat) :
    (∃ k, (generateAction lenient now domain expire hw saltBytes).1 =
      ([.checkDomain, .checkExpire, .getHwId, .hashCore, .hashChecksum] :
        List GenStep).take k) ∧
    (isValidDomain domain = false →
      generateAction lenient now domain expire hw saltBytes =
        ([.checkDomain], .error .invalidDomain) ∧
      GenStep.hashCore ∉ (generateAction lenient now domain expire hw saltBytes).1 ∧
      GenStep.hashChecksum ∉ (generateAction lenient now domain expire hw saltBytes).1) ∧
    (isValidDomain domain = true → isValidExpirationDate lenient now expire = false →
      generateAction lenient now domain expire hw saltBytes =
        ([.checkDomain, .checkExpire], .error .invalidExpiration)) ∧
    (isValidDomain domain = true → isValidExpirationDate lenient now expire = true →
      hw = none →
      generateAction lenient now domain expire hw saltBytes =
        ([.checkDomain, .checkExpire, .getHwId], .error .hardwareIdUnavailable)) ∧
    (∀ hid, isValidDomain domain = true →
      isValidExpirationDate lenient now expire = true → hw = some hid →
      generateAction lenient now domain expire hw saltBytes =
        ([.checkDomain, .checkExpire, .getHwId, .hashCore, .hashChecksum],
         .ok (addChecksum (generateLicenseKey domain expire hid saltBytes)))) := by
  refine ⟨?_, ?_, ?_, ?_, ?_⟩
  · by_cases hd : isValidDomain domain = true
    · by_cases he : isValidExpirationDate lenient now expire = true
      · cases hw with
        | none => exact ⟨3, by simp [generateAction, hd, he]⟩
        | some hid => exact ⟨5, by simp [generateAction, hd, he]⟩
      · exact ⟨2, by simp [generateAction, hd,
          Bool.not_eq_true _ ▸ he]⟩
    · exact ⟨1, by simp [generateAction, Bool.not_eq_true _ ▸ hd]⟩
  · intro hd
    have heq : generateAction lenient now domain expire hw saltBytes =
        ([.checkDomain], .error .invalidDomain) := by
      simp [generateAction, hd]
    exact ⟨heq, by rw [heq]; decide, by rw [heq]; decide⟩
  · intro hd he
    simp [generateAction, hd, he]
  · intro hd he hnone
    subst hnone
    simp [generateAction, hd, he]
  · intro hid hd he hsome
    subst hsome
    simp [generateAction, hd, he]

/-- Witness for C8: an invalid domain aborts immediately with
`invalidDomain` and no hashing step, for concrete other inputs. -/
theorem c8_witness :
    generateAction (fun _ => none) 0 "bad" "2099-12-31" (some "hw") [] =
      ([.checkDomain], .error .invalidDomain) ∧
    GenStep.hashCore ∉
      (generateAction (fun _ => none) 0 "bad" "2099-12-31" (some "hw") []).1 :=
  have h := (c8_generate_fail_fast (fun _ => none) 0 "bad" "2099-12-31"
    (some "hw") []).2.1 (by decide)
  ⟨h.1, h.2.1⟩

/-- Witness for C10 at the malformed key `"ab"` (1 part). -/
theorem c10_witness :
    VerifyError.malformedKey = VerifyError.malformedKey ∧
    (splitDot ("ab" : String).data).length ≠ 3 :=
  match c10_verify_only_count_and_checksum.1 "ab" .malformedKey rfl with
  | .inl h => h
  | .inr h => absurd h.1 (by decide)

end LicenseCLI
